import Mathlib

/-!
Shallow embedding of the `pogo` Go package (CBC padding-oracle decryption
engine) and proofs about the claims of its specification.

Bytes are modelled as `Nat` values kept below 256 by every operation that
produces them (`% 256` where Go's `byte` arithmetic wraps, `Nat.xor` of
values below 256 stays below 256).  Byte slices are `List Nat`, a block
list is `List (List Nat)`.  Go's slice aliasing in
`PaddingOracleBlockReveal` (the modifier block is a view into the caller's
block array, so every write to it is visible through `blocks`) is modelled
by returning the final block list alongside the plaintext.  A Go runtime
panic (out-of-range index, `%` by zero) is modelled by the `crash`
constructor, distinct from an ordinary returned `error`.
-/

set_option autoImplicit false

namespace Pogo

/-- Error taxonomy of the package: each constructor stands for one of the
`fmt.Errorf` values produced by the Go source. -/
inductive PogoError where
  | notBlockAligned
  | invalidTargetIndex
  | oracleExhausted
  | lengthMismatch
  | invalidPadding
deriving DecidableEq, Repr

/-- Result of a Go function returning `(T, error)`: `ok` for a nil error,
`err` for a returned error value, `crash` for a runtime panic. -/
inductive Outcome (α : Type) where
  | ok : α → Outcome α
  | err : PogoError → Outcome α
  | crash : Outcome α
deriving DecidableEq, Repr

/-- Go `MergeBlocks`: concatenates the blocks in order (total, never
returns an error). -/
def MergeBlocks : List (List Nat) → List Nat
  | [] => []
  | b :: bs => b ++ MergeBlocks bs

/-- Loop body of Go `SplitBlocks`: produce `n` consecutive chunks of
`blockSize` bytes (the Go loop runs `len(input)/blockSize` times on an
aligned input). -/
def chunksGo (blockSize : Nat) : Nat → List Nat → List (List Nat)
  | 0, _ => []
  | n + 1, l => List.take blockSize l :: chunksGo blockSize n (List.drop blockSize l)

/-- Go `SplitBlocks`: errors when the input length is not a multiple of the
block size, otherwise partitions the input into `len(input)/blockSize`
blocks.  `len(input) % blockSize` panics in Go when `blockSize = 0`. -/
def SplitBlocks (input : List Nat) (blockSize : Nat) : Outcome (List (List Nat)) :=
  if blockSize = 0 then .crash
  else if input.length % blockSize ≠ 0 then .err .notBlockAligned
  else .ok (chunksGo blockSize (input.length / blockSize) input)

/-- Go `Xor`: element-wise XOR of two equal-length byte strings, error on a
length mismatch. -/
def Xor (a b : List Nat) : Outcome (List Nat) :=
  if a.length ≠ b.length then .err .lengthMismatch
  else .ok (List.zipWith Nat.xor a b)

/-- Go `PKCS7Padding`: appends `padLen = blockSize - len(src) % blockSize`
bytes of value `byte(padLen)`.  Go panics when `blockSize = 0` (division by
zero); this definition is only used, and only faithful, for
`blockSize ≥ 1`. -/
def PKCS7Padding (src : List Nat) (blockSize : Nat) : List Nat :=
  src ++ List.replicate (blockSize - src.length % blockSize)
    ((blockSize - src.length % blockSize) % 256)

/-- Go `PKCS7Unpadding`: reads `src[len(src)-1]` (panics on an empty input
before any check), errors when `paddingLen >= len(src)` or
`paddingLen > blockSize`, otherwise drops the last `paddingLen` bytes. -/
def PKCS7Unpadding (src : List Nat) (blockSize : Nat) : Outcome (List Nat) :=
  if src.length = 0 then .crash
  else
    if src.length ≤ src.getLastD 0 ∨ blockSize < src.getLastD 0 then .err .invalidPadding
    else .ok (src.take (src.length - src.getLastD 0))

/-- Go `PKCS7Validate`: reads `input[len(input)-1]` (panics on an empty
input), rejects a zero last byte, a length that is not a multiple of the
block size (`% blockSize` panics when `blockSize = 0`), a last byte larger
than the block size, and any of the last `lastByte` bytes differing from
the last byte. -/
def PKCS7Validate (input : List Nat) (blockSize : Nat) : Outcome Unit :=
  if input.length = 0 then .crash
  else if input.getLastD 0 = 0 then .err .invalidPadding
  else if blockSize = 0 then .crash
  else if input.length % blockSize ≠ 0 then .err .invalidPadding
  else if blockSize < input.getLastD 0 then .err .invalidPadding
  else if (input.drop (input.length - input.getLastD 0)).all
      (fun b => b = input.getLastD 0) then .ok ()
  else .err .invalidPadding

/-- Probe of one candidate inside `PaddingOracleBlockReveal`: Go writes the
candidate into `modBlock[poi]`, stores the modifier back into
`blocks[targetBlockIndex-1]`, merges `blocks[:targetBlockIndex+1]` and asks
the oracle (`true` models a nil error). -/
def probeOracle (blocks : List (List Nat)) (targetBlockIndex : Nat)
    (oracle : List Nat → Bool) (modBlock : List Nat) : Bool :=
  oracle (MergeBlocks ((blocks.set (targetBlockIndex - 1) modBlock).take (targetBlockIndex + 1)))

/-- Inner `mb` loop of `PaddingOracleBlockReveal`: the first candidate byte
in `0..255` (ascending, first match wins) whose probe the oracle accepts. -/
def searchByte (blocks : List (List Nat)) (targetBlockIndex : Nat)
    (oracle : List Nat → Bool) (modBlock : List Nat) (poi : Nat) : Option Nat :=
  (List.range 256).find? (fun mb =>
    probeOracle blocks targetBlockIndex oracle (modBlock.set poi mb))

/-- Go `for j := ltb - 1; j >= poi-1; j--` update step of
`PaddingOracleBlockReveal`: with `lo = poi - 1` and `k` remaining
positions, writes `modBlock[lo+k-1]`, …, `modBlock[lo]` (descending, as in
the source) to `expectedPadding XOR intermediateState[j]`. -/
def updateRange (intermediateState : List Nat) (expectedPadding lo : Nat) :
    Nat → List Nat → List Nat
  | 0, modBlock => modBlock
  | k + 1, modBlock =>
      updateRange intermediateState expectedPadding lo k
        (modBlock.set (lo + k) (Nat.xor expectedPadding (intermediateState.getD (lo + k) 0)))

/-- Outer `for poi >= 0` loop of `PaddingOracleBlockReveal`.  The counter
`n` is `poi + 1` (the loop exits when `poi` drops below zero, i.e. at
counter 0).  Returns the final modifier block (the state the caller's
block array is left holding) together with the recovered intermediate
state.  Writing `modBlock[poi]` with `poi` out of range panics in Go. -/
def revealLoop (blocks : List (List Nat)) (targetBlockIndex : Nat)
    (oracle : List Nat → Bool) (ltb : Nat) :
    Nat → List Nat → List Nat → Nat → Outcome (List Nat × List Nat)
  | 0, modBlock, intermediateState, _ => .ok (modBlock, intermediateState)
  | n + 1, modBlock, intermediateState, expectedPadding =>
    if n < modBlock.length then
      match searchByte blocks targetBlockIndex oracle modBlock n with
      | none => .err .oracleExhausted
      | some mb =>
        let modBlock1 := modBlock.set n mb
        let intermediateState1 := intermediateState.set n (Nat.xor mb expectedPadding)
        let expectedPadding1 := (expectedPadding + 1) % 256
        if ltb % 256 < expectedPadding1 then
          revealLoop blocks targetBlockIndex oracle ltb n modBlock1
            intermediateState1 expectedPadding1
        else if n = 0 then .crash
        else
          revealLoop blocks targetBlockIndex oracle ltb n
            (updateRange intermediateState1 expectedPadding1 (n - 1) (ltb - n + 1) modBlock1)
            intermediateState1 expectedPadding1
    else .crash

/-- Go `PaddingOracleBlockReveal`.  Note the source indexes
`blocks[targetBlockIndex]` and `blocks[targetBlockIndex-1]` before its
range check, so an out-of-range index (or index 0) panics; the
`invalid target block index` return is reached only when the indexing
succeeded.  The modifier block aliases the caller's array, so the final
block list (input with entry `targetBlockIndex-1` replaced by the final
modifier block) is returned alongside the plaintext. -/
def PaddingOracleBlockReveal (blocks : List (List Nat)) (targetBlockIndex : Nat)
    (oracle : List Nat → Bool) : Outcome (List Nat × List (List Nat)) :=
  match blocks[targetBlockIndex]? with
  | none => .crash
  | some targetBlock =>
    if targetBlockIndex = 0 then .crash
    else
      match blocks[targetBlockIndex - 1]? with
      | none => .crash
      | some modBlockOrig =>
        if blocks.length ≤ targetBlockIndex ∨ blocks.length < 2 then
          .err .invalidTargetIndex
        else
          match revealLoop blocks targetBlockIndex oracle targetBlock.length
              targetBlock.length (modBlockOrig.map (fun b => (b + 1) % 256))
              (List.replicate targetBlock.length 0) 1 with
          | .crash => .crash
          | .err e => .err e
          | .ok (modBlockFinal, intermediateState) =>
            match Xor modBlockOrig intermediateState with
            | .ok pt => .ok (pt, blocks.set (targetBlockIndex - 1) modBlockFinal)
            | .err e => .err e
            | .crash => .crash

/-- Plaintext component of a successful `PaddingOracleBlockReveal` call. -/
def revealedPlain (o : Outcome (List Nat × List (List Nat))) : Option (List Nat) :=
  match o with
  | .ok (pt, _) => some pt
  | _ => none

/-- Result of Go `CBCPaddingOracle`, which returns `(plaintext, error)`
with both components meaningful: `err` carries the plaintext recovered
before the failure. -/
inductive DecOut where
  | ok : List Nat → DecOut
  | err : List Nat → PogoError → DecOut
  | crash : DecOut
deriving DecidableEq, Repr

/-- Loop of Go `CBCPaddingOracle`: reveal blocks `i, i+1, …` (`k` remaining
iterations; the Go loop runs `len(blocks) - 1` times), threading the block
array mutated by each `PaddingOracleBlockReveal` call into the next and
accumulating the plaintext. -/
def decryptLoop (oracle : List Nat → Bool) :
    Nat → Nat → List (List Nat) → List Nat → DecOut
  | _, 0, _, acc => .ok acc
  | i, k + 1, blocks, acc =>
    match PaddingOracleBlockReveal blocks i oracle with
    | .crash => .crash
    | .err e => .err acc e
    | .ok (pt, blocks1) => decryptLoop oracle (i + 1) k blocks1 (acc ++ pt)

/-- Go `CBCPaddingOracle`: alignment check (Go panics when
`blockSize = 0`), split, then reveal every block from index 1 upward. -/
def CBCPaddingOracle (ciphertext : List Nat) (blockSize : Nat)
    (oracle : List Nat → Bool) : DecOut :=
  if blockSize = 0 then .crash
  else if ciphertext.length % blockSize ≠ 0 then .err [] .notBlockAligned
  else
    match SplitBlocks ciphertext blockSize with
    | .crash => .crash
    | .err e => .err [] e
    | .ok blocks => decryptLoop oracle 1 (blocks.length - 1) blocks []

/-- Reference trace for the partial-result contract: `revealsOk oracle i j
blocks` performs `j` consecutive successful `PaddingOracleBlockReveal`
calls starting at block index `i`, threading the mutated block array, and
returns the list of recovered plaintext blocks together with the final
block array (`none` if any of the `j` calls does not succeed). -/
def revealsOk (oracle : List Nat → Bool) :
    Nat → Nat → List (List Nat) → Option (List (List Nat) × List (List Nat))
  | _, 0, blocks => some ([], blocks)
  | i, j + 1, blocks =>
    match PaddingOracleBlockReveal blocks i oracle with
    | .ok (pt, blocks1) =>
      match revealsOk oracle (i + 1) j blocks1 with
      | some (pts, blocksEnd) => some (pt :: pts, blocksEnd)
      | none => none
    | _ => none

/-- Element-wise XOR of two byte lists (total form used by the modelled
CBC mode; Go's `cipher` package XORs block-wise internally). -/
def zipXor (a b : List Nat) : List Nat := List.zipWith Nat.xor a b

/-- Modelled from the spec: the end-to-end scenario's block cipher is
AES-128 (`crypto/aes`), an external collaborator explicitly out of scope
("the block cipher itself" is an external collaborator; the engine treats
the oracle as an opaque capability).  It is modelled as an explicit
invertible byte map: multiplication by 241 (odd, hence invertible mod 256)
plus 16. -/
def encByte (v : Nat) : Nat := (v * 241 + 16) % 256

/-- Modelled from the spec: inverse byte map of `encByte`
(`241 * 17 ≡ 1` and `16 * 17 + 240 * 17 ≡ 0` mod 256). -/
def decByte (v : Nat) : Nat := ((v + 240) * 17) % 256

/-- Modelled from the spec: block-cipher encryption of one 16-byte block,
an explicit byte-wise permutation standing in for the external AES-128. -/
def encBlock (b : List Nat) : List Nat := b.map encByte

/-- Modelled from the spec: block-cipher decryption of one block, inverse
of `encBlock`. -/
def decBlock (b : List Nat) : List Nat := b.map decByte

/-- Modelled from the spec: CBC-mode encryption (`cipher.NewCBCEncrypter`
is external): each plaintext block is XORed with the previous ciphertext
block (initially the IV) and then encrypted. -/
def cbcEncryptBlocks (prev : List Nat) : List (List Nat) → List (List Nat)
  | [] => []
  | p :: ps => encBlock (zipXor p prev) :: cbcEncryptBlocks (encBlock (zipXor p prev)) ps

/-- Modelled from the spec: CBC-mode decryption (`cipher.NewCBCDecrypter`
is external): each ciphertext block is decrypted and XORed with the
previous ciphertext block (initially the IV). -/
def cbcDecryptBlocks (prev : List Nat) : List (List Nat) → List (List Nat)
  | [] => []
  | c :: cs => zipXor (decBlock c) prev :: cbcDecryptBlocks c cs

/-- The scenario's 32-byte plaintext of `'A'` bytes. -/
def plainA : List Nat := List.replicate 32 65

/-- The scenario's padded plaintext (48 bytes). -/
def paddedA : List Nat := PKCS7Padding plainA 16

/-- Modelled from the spec: the scenario's 3-block ciphertext, CBC
encryption of `paddedA` with a zero IV under the modelled block cipher. -/
def cipherA : List Nat :=
  MergeBlocks (cbcEncryptBlocks (List.replicate 16 0) (chunksGo 16 3 paddedA))

/-- Modelled from the spec: the scenario's oracle — `PKCS7Validate`
applied to the CBC decryption of the probe, exactly as the key-derived
oracle of the spec's end-to-end scenario (`true` models a nil error). -/
def oracleA (input : List Nat) : Bool :=
  match PKCS7Validate
      (MergeBlocks (cbcDecryptBlocks (List.replicate 16 0)
        (chunksGo 16 (input.length / 16) input))) 16 with
  | .ok _ => true
  | _ => false

/-! ## Theorems -/

set_option maxHeartbeats 16000000 in
/-- C1: in the end-to-end scenario (oracle = `PKCS7Validate` of the CBC
decryption of the probe, block size 16, 3-block ciphertext encrypting 32
`'A'` bytes padded to 48 bytes), `PaddingOracleBlockReveal` on block index
1 returns exactly the 16 bytes `"AAAAAAAAAAAAAAAA"`, and
`CBCPaddingOracle` over the full ciphertext returns plaintext blocks 1 and
2 (32 bytes) with no error. -/
theorem c1_end_to_end_scenario :
    revealedPlain (PaddingOracleBlockReveal (chunksGo 16 3 cipherA) 1 oracleA)
      = some (List.replicate 16 65) ∧
    CBCPaddingOracle cipherA 16 oracleA
      = DecOut.ok (List.replicate 16 65 ++ List.replicate 16 16) :=
  ⟨by decide, by decide⟩

/-- C3: on an out-of-range target index the source panics instead of
returning the `invalid target block index` error: `blocks[targetBlockIndex]`
(and, for index 0, `blocks[targetBlockIndex-1]`) is evaluated before the
range check, so for `targetIndex = 2` (`= len(blocks)`) and for
`targetIndex = 0` the call crashes. -/
theorem c3_invalid_index_crashes :
    PaddingOracleBlockReveal [[0], [0]] 2 (fun _ => true) = .crash ∧
    PaddingOracleBlockReveal [[0], [0]] 0 (fun _ => true) = .crash :=
  ⟨by decide, by decide⟩

/-- C10: `PKCS7Unpadding` and `PKCS7Validate` read the last byte of their
input before any length check, so on an empty input both crash (index out
of range) for every block size, instead of returning an `InvalidPadding`
error. -/
theorem c10_empty_input_crashes (blockSize : Nat) :
    PKCS7Unpadding [] blockSize = .crash ∧ PKCS7Validate [] blockSize = .crash :=
  ⟨rfl, rfl⟩

/-- C2: the source violates the read-only contract on its inputs.
`modBlock := blocks[targetBlockIndex-1]` aliases the caller's slice
instead of copying it, so the scramble and candidate writes reach the
shared backing storage (the backup copy is taken only for the final
plaintext XOR, showing the original block was meant to stay available).
At the failing input `[[5], [0]]`, target index 1, all-accepting oracle,
the call succeeds but leaves the caller's blocks as `[[0], [0]]`, not the
original `[[5], [0]]`. -/
theorem c2_mutates_shared_blocks :
    PaddingOracleBlockReveal [[5], [0]] 1 (fun _ => true)
      = .ok ([4], [[0], [0]]) ∧ ([[0], [0]] : List (List Nat)) ≠ [[5], [0]] :=
  ⟨by decide, by decide⟩

/-- C4 is false as stated: `CBCPaddingOracle` on a block-aligned
ciphertext of fewer than 2 blocks (length 0 or exactly one block) returns
empty plaintext with no error — its reveal loop simply never runs — rather
than reporting `InvalidTargetIndex` or any alignment/range error. -/
theorem c4_counterexample :
    CBCPaddingOracle [0, 0] 2 (fun _ => true) = .ok [] ∧
    CBCPaddingOracle [] 2 (fun _ => true) = .ok [] :=
  ⟨by decide, by decide⟩

/-- C5 is false as stated: the pad/unpad round-trip fails on the empty
byte sequence.  `PKCS7Padding [] 16` is a full padding block of 16 bytes
of value 16, and `PKCS7Unpadding` rejects it because of its
`paddingLen >= len(src)` check, returning an `InvalidPadding` error
instead of `[]`. -/
theorem c5_counterexample :
    PKCS7Unpadding (PKCS7Padding [] 16) 16 = .err .invalidPadding ∧
    PKCS7Unpadding (PKCS7Padding [] 16) 16 ≠ .ok [] :=
  ⟨by decide, by decide⟩

set_option maxRecDepth 4000 in
/-- C7 is false as stated: for block size 256 the padding byte is
truncated to `byte(padLen)`.  `PKCS7Padding [] 256` appends 256 bytes of
value `256 % 256 = 0`, and `PKCS7Validate` rejects the zero last byte. -/
theorem c7_counterexample :
    PKCS7Validate (PKCS7Padding [] 256) 256 = .err .invalidPadding ∧
    PKCS7Validate (PKCS7Padding [] 256) 256 ≠ .ok () :=
  ⟨by decide, by decide⟩

/-! ### Helper lemmas -/

/-- The last element (with default) of a list extended by a nonempty
replicate block is the replicated value. -/
theorem getLastD_append_replicate (l : List Nat) (n v d : Nat) (h : n ≠ 0) :
    (l ++ List.replicate n v).getLastD d = v := by
  obtain ⟨m, rfl⟩ : ∃ m, n = m + 1 := ⟨n - 1, by omega⟩
  rw [List.replicate_succ', ← List.append_assoc, List.getLastD_concat]

/-- The padded output always has length a multiple of the block size
(for a positive block size). -/
theorem pkcs7Padding_length_mod (x : List Nat) (bs : Nat) (hbs : 0 < bs) :
    (PKCS7Padding x bs).length % bs = 0 := by
  have hr : x.length % bs < bs := Nat.mod_lt _ hbs
  have hd : bs * (x.length / bs) + x.length % bs = x.length := Nat.div_add_mod _ _
  have h1 : (PKCS7Padding x bs).length = x.length + (bs - x.length % bs) := by
    simp [PKCS7Padding]
  have h2 : x.length + (bs - x.length % bs) = bs * (x.length / bs + 1) := by
    rw [Nat.mul_succ]; omega
  rw [h1, h2, Nat.mul_mod_right]

/-- `chunksGo` always produces exactly `n` chunks. -/
theorem chunksGo_length (bs n : Nat) : ∀ l, (chunksGo bs n l).length = n := by
  induction n with
  | zero => intro l; rfl
  | succ n ih => intro l; simp [chunksGo, ih]

/-- Merging the chunks of an exactly-covered list restores the list. -/
theorem mergeBlocks_chunksGo (bs n : Nat) (x : List Nat) (h : x.length = bs * n) :
    MergeBlocks (chunksGo bs n x) = x := by
  induction n generalizing x with
  | zero =>
    have hx : x = [] := List.length_eq_zero.mp (by omega)
    subst hx; rfl
  | succ n ih =>
    have hd : (List.drop bs x).length = bs * n := by
      rw [List.length_drop, h, Nat.mul_succ]; omega
    calc MergeBlocks (chunksGo bs (n + 1) x)
        = List.take bs x ++ MergeBlocks (chunksGo bs n (List.drop bs x)) := rfl
      _ = List.take bs x ++ List.drop bs x := by rw [ih _ hd]
      _ = x := List.take_append_drop bs x

/-- Positions outside `[lo, lo+k)` are untouched by `updateRange`. -/
theorem updateRange_getElem?_untouched (istate : List Nat) (ep : Nat) (k : Nat) :
    ∀ (lo : Nat) (mb : List Nat) (j : Nat), j < lo ∨ lo + k ≤ j →
      (updateRange istate ep lo k mb)[j]? = mb[j]? := by
  induction k with
  | zero => intro lo mb j _; rfl
  | succ k ih =>
    intro lo mb j hj
    show (updateRange istate ep lo k
      (mb.set (lo + k) (Nat.xor ep (istate.getD (lo + k) 0))))[j]? = mb[j]?
    rw [ih lo _ j (by omega)]
    exact List.getElem?_set_ne (by omega)

/-- Positions inside `[lo, lo+k)` are rewritten by `updateRange` to the
expected padding XOR the intermediate state. -/
theorem updateRange_getElem?_written (istate : List Nat) (ep : Nat) (k : Nat) :
    ∀ (lo : Nat) (mb : List Nat) (j : Nat), lo ≤ j → j < lo + k → j < mb.length →
      (updateRange istate ep lo k mb)[j]? = some (Nat.xor ep (istate.getD j 0)) := by
  induction k with
  | zero => intro lo mb j h1 h2 _; omega
  | succ k ih =>
    intro lo mb j h1 h2 h3
    show (updateRange istate ep lo k
      (mb.set (lo + k) (Nat.xor ep (istate.getD (lo + k) 0))))[j]? = _
    by_cases hj : j = lo + k
    · subst hj
      rw [updateRange_getElem?_untouched istate ep k lo _ _ (Or.inr le_rfl)]
      exact List.getElem?_set_eq_of_lt _ h3
    · exact ih lo _ j h1 (by omega) (by simpa using h3)

/-- On a failure, `decryptLoop` returns its accumulator extended with the
merge of the plaintext blocks of exactly the successful reveals before the
failing one, together with that failure. -/
theorem decryptLoop_err_trace (oracle : List Nat → Bool) (k : Nat) :
    ∀ (i : Nat) (blocks : List (List Nat)) (acc pt : List Nat) (e : PogoError),
      decryptLoop oracle i k blocks acc = .err pt e →
      ∃ j pts blocksj, revealsOk oracle i j blocks = some (pts, blocksj) ∧
        PaddingOracleBlockReveal blocksj (i + j) oracle = .err e ∧
        pt = acc ++ MergeBlocks pts := by
  induction k with
  | zero =>
    intro i blocks acc pt e h
    exact absurd h (by simp [decryptLoop])
  | succ k ih =>
    intro i blocks acc pt e h
    unfold decryptLoop at h
    cases hrev : PaddingOracleBlockReveal blocks i oracle with
    | crash => rw [hrev] at h; exact absurd h (by simp)
    | err e1 =>
      rw [hrev] at h
      obtain ⟨h1, h2⟩ : acc = pt ∧ e1 = e := by
        constructor <;> [exact congrArg (fun o => match o with
          | DecOut.err p _ => p | _ => acc) h;
          exact congrArg (fun o => match o with
          | DecOut.err _ x => x | _ => e1) h]
      exact ⟨0, [], blocks, rfl, by rw [Nat.add_zero, hrev, h2],
        by simp [h1, MergeBlocks]⟩
    | ok a =>
      obtain ⟨pt1, blocks1⟩ := a
      rw [hrev] at h
      obtain ⟨j, pts, blocksj, hro, hfail, hpt⟩ := ih (i + 1) blocks1 (acc ++ pt1) pt e h
      refine ⟨j + 1, pt1 :: pts, blocksj, ?_, ?_, ?_⟩
      · simp only [revealsOk, hrev, hro]
      · rw [show i + (j + 1) = i + 1 + j by omega]; exact hfail
      · rw [hpt]; show (acc ++ pt1) ++ MergeBlocks pts = acc ++ (pt1 ++ MergeBlocks pts)
        rw [List.append_assoc]

/-! ### Remaining claim theorems -/

/-- C4 (amended): on a block-aligned ciphertext of fewer than 2 blocks
(length at most one block, positive block size), `CBCPaddingOracle`
returns empty plaintext and no error: its reveal loop never runs. -/
theorem c4_amended (ciphertext : List Nat) (blockSize : Nat) (oracle : List Nat → Bool)
    (hbs : 0 < blockSize) (hlen : ciphertext.length ≤ blockSize)
    (halign : ciphertext.length % blockSize = 0) :
    CBCPaddingOracle ciphertext blockSize oracle = .ok [] := by
  have hbs' : blockSize ≠ 0 := hbs.ne'
  have hdiv : ciphertext.length / blockSize ≤ 1 := by
    calc ciphertext.length / blockSize ≤ blockSize / blockSize :=
          Nat.div_le_div_right hlen
      _ = 1 := Nat.div_self hbs
  have hsplit : SplitBlocks ciphertext blockSize
      = .ok (chunksGo blockSize (ciphertext.length / blockSize) ciphertext) := by
    simp [SplitBlocks, hbs', halign]
  unfold CBCPaddingOracle
  rw [if_neg hbs', if_neg (not_not_intro halign), hsplit]
  show decryptLoop oracle 1
    ((chunksGo blockSize (ciphertext.length / blockSize) ciphertext).length - 1) _ [] = _
  rw [chunksGo_length, show ciphertext.length / blockSize - 1 = 0 from by omega]
  rfl

/-- C4 (amended) at a concrete single-block input: a 3-byte ciphertext
with block size 3 yields empty plaintext and no error. -/
theorem c4_amended_witness : CBCPaddingOracle [1, 2, 3] 3 (fun _ => false) = .ok [] :=
  c4_amended [1, 2, 3] 3 (fun _ => false) (by decide) (by decide) (by decide)

/-- C5 (amended): for every byte sequence and positive block size the
padded length is a multiple of the block size, and the pad/unpad
round-trip returns the original sequence provided it is nonempty (the
`paddingLen >= len(src)` check rejects the padded empty sequence) and the
block size is at most 255 (larger block sizes overflow `byte(padLen)`). -/
theorem c5_amended (x : List Nat) (bs : Nat) (hbs : 1 ≤ bs) :
    (PKCS7Padding x bs).length % bs = 0 ∧
    (x ≠ [] → bs ≤ 255 → PKCS7Unpadding (PKCS7Padding x bs) bs = .ok x) := by
  refine ⟨pkcs7Padding_length_mod x bs hbs, fun hx h255 => ?_⟩
  have hr : x.length % bs < bs := Nat.mod_lt _ hbs
  have hc : (bs - x.length % bs) % 256 = bs - x.length % bs :=
    Nat.mod_eq_of_lt (by omega)
  have hxlen : x.length ≠ 0 := fun hz => hx (List.length_eq_zero.mp hz)
  unfold PKCS7Padding PKCS7Unpadding
  rw [hc, getLastD_append_replicate _ _ _ _ (by omega)]
  simp only [List.length_append, List.length_replicate]
  rw [if_neg (by omega), if_neg (by omega), Nat.add_sub_cancel, List.take_left]

/-- C5 (amended) at a concrete input: padding then unpadding the 2-byte
sequence `[65, 66]` with block size 16 restores it, and the padded length
is a multiple of 16. -/
theorem c5_amended_witness :
    (PKCS7Padding [65, 66] 16).length % 16 = 0 ∧
    PKCS7Unpadding (PKCS7Padding [65, 66] 16) 16 = .ok [65, 66] :=
  ⟨(c5_amended [65, 66] 16 (by decide)).1,
   (c5_amended [65, 66] 16 (by decide)).2 (by decide) (by decide)⟩

/-- C7 (amended): validation accepts every padded output for block sizes
between 1 and 255 (block size 256 and larger overflows `byte(padLen)` and
is rejected, see the counterexample). -/
theorem c7_amended (x : List Nat) (bs : Nat) (hbs : 1 ≤ bs) (h255 : bs ≤ 255) :
    PKCS7Validate (PKCS7Padding x bs) bs = .ok () := by
  have hr : x.length % bs < bs := Nat.mod_lt _ hbs
  have hc : (bs - x.length % bs) % 256 = bs - x.length % bs :=
    Nat.mod_eq_of_lt (by omega)
  have hmod : (x.length + (bs - x.length % bs)) % bs = 0 := by
    have := pkcs7Padding_length_mod x bs hbs
    simpa [PKCS7Padding] using this
  unfold PKCS7Padding PKCS7Validate
  rw [hc, getLastD_append_replicate _ _ _ _ (by omega)]
  simp only [List.length_append, List.length_replicate]
  rw [if_neg (by omega), if_neg (by omega), if_neg (by omega),
    if_neg (not_not_intro hmod), if_neg (by omega), Nat.add_sub_cancel,
    List.drop_left, if_pos]
  simp [List.all_eq_true, List.mem_replicate]

/-- C7 (amended) at a concrete input: the padding of `[1, 2, 3]` with
block size 8 validates. -/
theorem c7_amended_witness : PKCS7Validate (PKCS7Padding [1, 2, 3] 8) 8 = .ok () :=
  c7_amended [1, 2, 3] 8 (by decide) (by decide)

/-- C8: for a positive block size, `SplitBlocks` fails (with the
not-block-aligned error) exactly when the input length is not a multiple
of the block size, and whenever it succeeds `MergeBlocks` of the produced
blocks restores the input (`MergeBlocks` itself is a total function and
never fails). -/
theorem c8_split_merge_round_trip (x : List Nat) (bs : Nat) (hbs : 0 < bs) :
    (SplitBlocks x bs = .err .notBlockAligned ↔ x.length % bs ≠ 0) ∧
    (∀ blocks, SplitBlocks x bs = .ok blocks → MergeBlocks blocks = x) := by
  have hbs' : bs ≠ 0 := hbs.ne'
  constructor
  · constructor
    · intro h hmod
      exact absurd h (by simp [SplitBlocks, hbs', hmod])
    · intro hmod
      simp [SplitBlocks, hbs', hmod]
  · intro blocks h
    by_cases hmod : x.length % bs = 0
    · have hchunks : blocks = chunksGo bs (x.length / bs) x := by
        have := h.symm.trans (by simp [SplitBlocks, hbs', hmod] :
          SplitBlocks x bs = .ok (chunksGo bs (x.length / bs) x))
        exact Outcome.ok.inj this
      have hlen : x.length = bs * (x.length / bs) :=
        (Nat.mul_div_cancel' (Nat.dvd_of_mod_eq_zero hmod)).symm
      rw [hchunks]
      exact mergeBlocks_chunksGo bs _ x hlen
    · exact absurd h (by simp [SplitBlocks, hbs', hmod])

/-- C8 at a concrete input: splitting `[65, 66, 67, 68]` with block size 2
succeeds and merging restores the input. -/
theorem c8_witness : MergeBlocks [[65, 66], [67, 68]] = [65, 66, 67, 68] :=
  (c8_split_merge_round_trip [65, 66, 67, 68] 2 (by decide)).2
    [[65, 66], [67, 68]] (by decide)

/-- C9 is false as stated: the update step also writes position
`poi - 1`.  With `ltb = 2`, `poi = 1`, the source loop
`for j := ltb - 1; j >= poi-1; j--` (modelled by
`updateRange istate ep (poi-1) (ltb-poi+1)`) writes positions 1 and 0:
position `0 < poi` changes from 10 to `2 XOR 9 = 11`. -/
theorem c9_counterexample :
    updateRange [9, 3] 2 0 2 [10, 10] = [11, 1] ∧
    (updateRange [9, 3] 2 0 2 [10, 10])[0]? ≠ ([10, 10] : List Nat)[0]? :=
  ⟨by decide, by decide⟩

/-- C9 (amended): after a successful candidate at position `poi` with the
incremented padding still within the block, the update step rewrites the
modifier block at exactly the positions `poi - 1 ≤ j ≤ ltb - 1` (one more
position than the claim states), each set to
`expectedPadding XOR intermediateState[j]`; positions below `poi - 1` and
above `ltb - 1` are not written. -/
theorem c9_amended (istate : List Nat) (ep poi ltb : Nat) (mb : List Nat)
    (hpoi : 1 ≤ poi) (hle : poi ≤ ltb) :
    (∀ j, j < poi - 1 →
      (updateRange istate ep (poi - 1) (ltb - poi + 1) mb)[j]? = mb[j]?) ∧
    (∀ j, poi - 1 ≤ j → j ≤ ltb - 1 → j < mb.length →
      (updateRange istate ep (poi - 1) (ltb - poi + 1) mb)[j]?
        = some (Nat.xor ep (istate.getD j 0))) ∧
    (∀ j, ltb - 1 < j →
      (updateRange istate ep (poi - 1) (ltb - poi + 1) mb)[j]? = mb[j]?) :=
  ⟨fun j hj => updateRange_getElem?_untouched istate ep _ _ mb j (Or.inl hj),
   fun j h1 h2 h3 =>
     updateRange_getElem?_written istate ep _ _ mb j h1 (by omega) h3,
   fun j hj => updateRange_getElem?_untouched istate ep _ _ mb j (Or.inr (by omega))⟩

/-- C9 (amended) at a concrete input: with `ltb = 2`, `poi = 2` the update
writes only position 1 (`2 XOR 3 = 1`); position 0 is untouched. -/
theorem c9_amended_witness :
    (updateRange [9, 3] 2 1 1 [10, 10])[0]? = ([10, 10] : List Nat)[0]? ∧
    (updateRange [9, 3] 2 1 1 [10, 10])[1]? = some (Nat.xor 2 ([9, 3].getD 1 0)) :=
  ⟨(c9_amended [9, 3] 2 2 2 [10, 10] (by decide) (by decide)).1 0 (by decide),
   (c9_amended [9, 3] 2 2 2 [10, 10] (by decide) (by decide)).2.1 1
     (by decide) (by decide) (by decide)⟩

/-- C6: when a reveal fails during `CBCPaddingOracle` (on a block-aligned
ciphertext with positive block size, so that the loop is reached), the
returned error carries exactly the concatenation of the plaintext blocks
of the successful reveals that preceded the failing one, and the error is
the one produced by the failing reveal. -/
theorem c6_partial_result (ciphertext : List Nat) (blockSize : Nat)
    (oracle : List Nat → Bool) (pt : List Nat) (e : PogoError)
    (hbs : blockSize ≠ 0) (halign : ciphertext.length % blockSize = 0)
    (h : CBCPaddingOracle ciphertext blockSize oracle = .err pt e) :
    ∃ j pts blocksj,
      revealsOk oracle 1 j (chunksGo blockSize (ciphertext.length / blockSize) ciphertext)
        = some (pts, blocksj) ∧
      PaddingOracleBlockReveal blocksj (1 + j) oracle = .err e ∧
      pt = MergeBlocks pts := by
  have hsplit : SplitBlocks ciphertext blockSize
      = .ok (chunksGo blockSize (ciphertext.length / blockSize) ciphertext) := by
    simp [SplitBlocks, hbs, halign]
  unfold CBCPaddingOracle at h
  rw [if_neg hbs, if_neg (not_not_intro halign), hsplit] at h
  obtain ⟨j, pts, blocksj, hro, hfail, hpt⟩ :=
    decryptLoop_err_trace oracle _ 1 _ [] pt e h
  exact ⟨j, pts, blocksj, hro, hfail, by simpa using hpt⟩

/-- C6 at a concrete input: with block size 1, ciphertext `[7, 8, 9]` and
an oracle accepting only 2-byte probes, the reveal of block 1 succeeds
(plaintext `[6]`) and the reveal of block 2 exhausts the oracle;
`CBCPaddingOracle` returns `[6]` together with that error. -/
theorem c6_partial_result_witness :
    ∃ j pts blocksj,
      revealsOk (fun l => decide (l.length = 2)) 1 j (chunksGo 1 3 [7, 8, 9])
        = some (pts, blocksj) ∧
      PaddingOracleBlockReveal blocksj (1 + j) (fun l => decide (l.length = 2))
        = .err PogoError.oracleExhausted ∧
      ([6] : List Nat) = MergeBlocks pts :=
  c6_partial_result [7, 8, 9] 1 (fun l => decide (l.length = 2)) [6]
    PogoError.oracleExhausted (by decide) (by decide) (by decide)

end Pogo
